import Mathlib

/-!
Verification of the projectlint rule-evaluation engine (src/index.js) against
its natural-language specification.  The JavaScript source is shallowly
embedded: JS runtime values become the inductive `JSValue`, the per-rule
cascading evaluation (`normalizeRules` / `rule.func`) becomes an explicit
state-passing loop, configuration normalization (`parseRuleConfig`,
`unifyRuleLevel`, `sortRulesConfig`, `levels`) becomes executable functions,
and the top-level entry point becomes `projectLint` returning `Except`, with
synchronous throws as `Except.error` and per-rule settled outcomes embedded
in the result records.
-/

namespace Projectlint

/-- JS runtime values relevant to the engine: primitives, arrays, plain
objects (constructor `Object`, fields are the own enumerable keys), instances
of the domain `Failure` class (which extends `Error` and stores the wrapped
evaluation in its `result` field), and plain `Error` instances. -/
inductive JSValue : Type where
  | undefinedV : JSValue
  | nullv : JSValue
  | bool : Bool → JSValue
  | num : Int → JSValue
  | str : String → JSValue
  | arr : List JSValue → JSValue
  | obj : List (String × JSValue) → JSValue
  | failureErr : JSValue → JSValue
  | plainErr : String → JSValue

/-- JS truthiness of an embedded value. -/
def truthy : JSValue → Bool
  | .undefinedV => false
  | .nullv => false
  | .bool b => b
  | .num n => n != 0
  | .str s => s != ""
  | .arr _ => true
  | .obj _ => true
  | .failureErr _ => true
  | .plainErr _ => true

/-- `v instanceof Error`: `Failure` extends `Error`, so both error kinds
are instances of the base `Error` class. -/
def isErrorInstance : JSValue → Bool
  | .failureErr _ => true
  | .plainErr _ => true
  | _ => false

/-- `v instanceof Failure`: only the domain failure class. -/
def isFailureInstance : JSValue → Bool
  | .failureErr _ => true
  | _ => false

/-- The settled behaviour of one call of a rule method: a synchronous return
value, a returned promise (resolved or rejected), or a synchronous throw. -/
inductive Outcome : Type where
  | ret : JSValue → Outcome
  | promiseResolved : JSValue → Outcome
  | promiseRejected : JSValue → Outcome
  | thrown : JSValue → Outcome

/-- Result of one level of the cascade body: either control falls through the
`try` block (success) or some value reaches the `catch` clause. -/
inductive StepOut : Type where
  | success : StepOut
  | caught : JSValue → StepOut

/-- Classification of the value produced by `evaluate`, mirroring the `try`
body of `rule.func`: a returned promise is awaited (resolution ignored,
rejection caught); a returned `Error` instance is thrown as is; a non-empty
array is thrown wrapped in `Failure`; any other truthy value is thrown
wrapped in `Failure` unless it is a plain object with no own keys; falsy
values fall through. -/
def classifyEvaluation : Outcome → StepOut
  | .thrown e => .caught e
  | .promiseResolved _ => .success
  | .promiseRejected e => .caught e
  | .ret v =>
    if isErrorInstance v then .caught v
    else
      match v with
      | .arr xs => if xs.isEmpty then .success else .caught (.failureErr (.arr xs))
      | .obj fields =>
        if truthy (.obj fields) then
          if fields.isEmpty then .success else .caught (.failureErr (.obj fields))
        else .success
      | w => if truthy w then .caught (.failureErr w) else .success

/-- The resolved `errorLevel` option: the class against which caught values
are tested with `instanceof` (the `Failure` class or the base `Error`). -/
inductive ErrClass : Type where
  | failureCls : ErrClass
  | errorCls : ErrClass

/-- `err instanceof errorLevel` for the resolved class. -/
def instanceOfCls : ErrClass → JSValue → Bool
  | .failureCls, v => isFailureInstance v
  | .errorCls, v => isErrorInstance v

/-- Semantic classification of one cascade step: success, recoverable
failure (caught value accepted by the `instanceof errorLevel` test) or fatal
error (caught value rethrown). -/
inductive StepClass : Type where
  | success : StepClass
  | recoverable : JSValue → StepClass
  | fatal : JSValue → StepClass

/-- Combine outcome classification with the catchability test. -/
def classifyStep (cls : ErrClass) : StepOut → StepClass
  | .success => .success
  | .caught e => if instanceOfCls cls e then .recoverable e else .fatal e

/-- Argument record of `evaluate`:
`evaluate(\x7bconfig, context, dependenciesResults, fetch: \x7bconfig, result\x7d\x7d)`. -/
structure EvalInput : Type where
  config : JSValue
  context : JSValue
  dependenciesResults : JSValue
  fetchConfig : JSValue
  fetchResult : JSValue

/-- Argument record of `fetch`: `fetch(\x7bconfig, context, dependenciesResults\x7d)`. -/
structure FetchInput : Type where
  config : JSValue
  context : JSValue
  dependenciesResults : JSValue

/-- The arguments the deferred fix thunk closes over:
`fix(\x7bconfig: fixConfig, context, dependenciesResults, error, fetch: \x7bconfig, result\x7d\x7d)`. -/
structure FixBinding : Type where
  config : JSValue
  context : JSValue
  dependenciesResults : JSValue
  error : JSValue
  fetchConfig : JSValue
  fetchResult : JSValue

/-- A rule definition as supplied by the caller.  `evaluate` is optional so
that the missing-`evaluate` configuration error can be expressed; `fetch`
may reject (`Except.error`); `hasFix` records whether a `fix` method is
declared (the engine only constructs the thunk, it never invokes it). -/
structure RuleDef : Type where
  dependsOn : List String := []
  evaluate : Option (EvalInput → Outcome) := none
  fetch : Option (FetchInput → Except JSValue JSValue) := none
  hasFix : Bool := false

/-- A rule after `normalizeRules` validated that `evaluate` is present. -/
structure NormalizedRule : Type where
  dependsOn : List String
  evaluate : EvalInput → Outcome
  fetch : Option (FetchInput → Except JSValue JSValue)
  hasFix : Bool

/-- The mutable result fields the engine writes onto the per-root rule
wrapper object (`rule.level`, `rule.failure`, `rule.fix`, `rule.result`);
`none` / `JSValue.undefinedV` model fields never assigned. -/
structure RuleState : Type where
  level : Option Int := none
  failure : Option JSValue := none
  fix : Option FixBinding := none
  result : JSValue := .undefinedV

/-- Local state of one execution of the cascade loop: the wrapper fields
`rule.level` / `rule.failure` together with the function-local variables
`error` and `fixConfig` of `rule.func`, plus an instrumentation log of the
levels whose `evaluate` call was performed, in order. -/
structure LoopState : Type where
  ruleLevel : Int
  ruleFailure : Option JSValue
  errorVar : Option JSValue
  fixConfig : JSValue
  visited : List Int

/-- Everything one cascade iteration needs that does not change between
levels: the resolved error class and the actual arguments of `evaluate`
other than the per-level config. -/
structure CascadeEnv : Type where
  cls : ErrClass
  evaluate : EvalInput → Outcome
  context : JSValue
  dependenciesResults : JSValue
  fetchConfig : JSValue
  fetchResult : JSValue

/-- The classification of the cascade step a given level entry produces. -/
def stepOf (env : CascadeEnv) (entry : Int × JSValue) : StepClass :=
  classifyStep env.cls (classifyEvaluation (env.evaluate
    ⟨entry.2, env.context, env.dependenciesResults, env.fetchConfig, env.fetchResult⟩))

/-- The `for(const [level, ruleConfig] of rules) try ... catch` loop of
`rule.func`.  On success continue; on a caught value first set `rule.level`,
then either record the failure and continue (recoverable) or abort with the
state reached so far and the rethrown value (fatal). -/
def cascadeLoop (env : CascadeEnv) :
    LoopState → List (Int × JSValue) → Except (LoopState × JSValue) LoopState
  | st, [] => .ok st
  | st, (level, ruleConfig) :: rest =>
    let st1 : LoopState := { st with visited := st.visited ++ [level] }
    match stepOf env (level, ruleConfig) with
    | .success => cascadeLoop env st1 rest
    | .recoverable e =>
      cascadeLoop env
        { st1 with ruleLevel := level, ruleFailure := some e, errorVar := some e,
                   fixConfig := ruleConfig } rest
    | .fatal e => .error ({ st1 with ruleLevel := level }, e)

/-- Result of one invocation of `rule.func`: the wrapper fields after the
call, the log of evaluated levels, and the function outcome (resolution
value or rejection value). -/
structure FuncOutput : Type where
  state : RuleState
  visited : List Int
  outcome : Except JSValue JSValue

/-- The fetch step of `rule.func`: `if(fetch) result = await fetch(\x7bconfig,
context, dependenciesResults\x7d)`.  Runs once when declared, its rejection
propagates, and with no `fetch` the result stays `undefined`. -/
def fetchedOf (methods : NormalizedRule)
    (context dependenciesResults config : JSValue) : Except JSValue JSValue :=
  match methods.fetch with
  | some f => f ⟨config, context, dependenciesResults⟩
  | none => .ok .undefinedV

/-- One invocation of the bound execution function `rule.func(context,
dependenciesResults, \x7bconfig, rules\x7d)`: run the fetch step (a rejection
aborts before `rule.level = 0` is even assigned), set `rule.level = 0`, run
the cascade, and afterwards construct the fix thunk binding when a
recoverable failure was recorded and a `fix` method exists; the function
resolves with the fetched result.  On a fatal abort `rule.result` is
assigned the fetched result before rethrowing. -/
def ruleFunc (cls : ErrClass) (methods : NormalizedRule)
    (context dependenciesResults config : JSValue)
    (rulesList : List (Int × JSValue)) : FuncOutput :=
  match fetchedOf methods context dependenciesResults config with
  | .error e => { state := {}, visited := [], outcome := .error e }
  | .ok fetchResult =>
    let env : CascadeEnv :=
      ⟨cls, methods.evaluate, context, dependenciesResults, config, fetchResult⟩
    let init : LoopState := ⟨0, none, none, .undefinedV, []⟩
    match cascadeLoop env init rulesList with
    | .error (st, e) =>
      { state := { level := some st.ruleLevel, failure := st.ruleFailure, fix := none,
                   result := fetchResult },
        visited := st.visited, outcome := .error e }
    | .ok st =>
      let fixBinding : Option FixBinding :=
        match st.errorVar with
        | some err =>
          if methods.hasFix then
            some ⟨st.fixConfig, context, dependenciesResults, err, config, fetchResult⟩
          else none
        | none => none
      { state := { level := some st.ruleLevel, failure := st.ruleFailure, fix := fixBinding,
                   result := .undefinedV },
        visited := st.visited, outcome := .ok fetchResult }

/-- A `forEach`/`for` loop that applies a fallible step to every element and
propagates the first thrown error, collecting the results in order. -/
def mapExcept (f : α → Except ε β) : List α → Except ε (List β)
  | [] => .ok []
  | x :: xs =>
    match f x with
    | .error e => .error e
    | .ok y =>
      match mapExcept f xs with
      | .error e => .error e
      | .ok ys => .ok (y :: ys)

/-- Names of the members an object literal inherits from `Object.prototype`
in Node's default realm: reading any of these on the `levels` literal yields
a non-null inherited value (a function, or the prototype object itself for
`__proto__`). -/
def objectPrototypeMembers : List String :=
  ["constructor", "hasOwnProperty", "isPrototypeOf", "propertyIsEnumerable",
   "toLocaleString", "toString", "valueOf", "__proto__",
   "__defineGetter__", "__defineSetter__", "__lookupGetter__",
   "__lookupSetter__"]

/-- Result of the JS property read `levels[key]`: an own data property (one
of the eight numeric severity levels), a non-null member inherited from
`Object.prototype` further up the chain, or `undefined` when the property
exists nowhere on the chain. -/
inductive LevelLookup : Type where
  | own : Int → LevelLookup
  | inherited : String → LevelLookup
  | undefinedProp : LevelLookup

/-- The property read `levels[key]` on the `levels` object literal:
`warn`/`warning` are 1, `error` 2, `critical` 3; control levels `ignore` -1,
`skipIf` -2, `skip` -3, `disabled` -4.  A key that is not an own property is
looked up along the prototype chain, so the names of `Object.prototype`
members resolve to non-null inherited values; only the remaining names read
`undefined`. -/
def levels (s : String) : LevelLookup :=
  if s = "warn" then .own 1
  else if s = "warning" then .own 1
  else if s = "error" then .own 2
  else if s = "critical" then .own 3
  else if s = "ignore" then .own (-1)
  else if s = "skipIf" then .own (-2)
  else if s = "skip" then .own (-3)
  else if s = "disabled" then .own (-4)
  else if s ∈ objectPrototypeMembers then .inherited s
  else .undefinedProp

/-- A level key of a raw config entry: either a severity name or already a
number. -/
inductive LevelKey : Type where
  | name : String → LevelKey
  | num : Int → LevelKey

/-- One raw config tuple `[levelKey, config]`; a one-element tuple leaves the
config `undefined`. -/
structure RawEntry : Type where
  key : LevelKey
  config : JSValue := .undefinedV

/-- The accepted shapes of the level part of a raw rule configuration:
a textual-grammar string, a single tuple `[name, config]`, an array of such
tuples, or a keyed object `\x7bname: config, ...\x7d` (taken as its entries in
insertion order). -/
inductive RawRules : Type where
  | strForm : String → RawRules
  | singleEntry : RawEntry → RawRules
  | entryList : List RawEntry → RawRules
  | keyed : List (String × JSValue) → RawRules

/-- A raw rule configuration, possibly wrapped in an object with a reserved
`rules` key whose remaining keys are auxiliary top-level config. -/
inductive RawConfig : Type where
  | plain : RawRules → RawConfig
  | wrapped : List (String × JSValue) → RawRules → RawConfig

/-- Modelled from the spec: the textual grammar (the external `levn` parser
applied to `ruleType`, not part of this repository) parses a bare
severity-name string with no payload into a single one-element tuple, so
that after the array unification it becomes the one-element list
`[[levelOf(name), undefined]]` (spec 4.1; repository test with config
`warning`). -/
def parseRuleString (s : String) : List RawEntry :=
  [{ key := .name s }]

/-- Unify the accepted raw shapes into an array of `[levelKey, config]`
tuples, mirroring the shape dispatch of `parseRuleConfig`. -/
def coerceToEntries : RawRules → List RawEntry
  | .strForm s => parseRuleString s
  | .singleEntry e => [e]
  | .entryList l => l
  | .keyed l => l.map fun p => { key := .name p.1, config := p.2 }

/-- The value of `entry[0]` after `entry[0] = level`: the resolved numeric
level, or the non-numeric value inherited from `Object.prototype` — the
program does not throw for the latter, since `level == null` is false. -/
inductive UnifiedKey : Type where
  | num : Int → UnifiedKey
  | inheritedMember : String → UnifiedKey

/-- `unifyRuleLevel`: a numeric level key passes through unchanged; a name
is read off the `levels` object, and the Unknown-level configuration error
is thrown only when that read yields `undefined` (`level == null`) — a name
of an inherited `Object.prototype` member passes the null test and its
inherited value is written into the entry. -/
def unifyRuleLevel : RawEntry → Except String (UnifiedKey × JSValue)
  | ⟨.num n, c⟩ => .ok (.num n, c)
  | ⟨.name s, c⟩ =>
    match levels s with
    | .own l => .ok (.num l, c)
    | .inherited m => .ok (.inheritedMember m, c)
    | .undefinedProp => .error ("Unknown level " ++ s)

/-- The numeric reading of one unified entry.  An entry whose level slot
holds an inherited `Object.prototype` member is refused here as a model
boundary, not as program behaviour: the program carries such an entry into
`sort(sortRulesConfig)`, whose comparator `a - b` is then NaN-valued and
inconsistent, and ECMA-262 leaves the result of sorting with an
inconsistent comparator implementation-defined — beyond this branch the
embedding makes no claim, and no theorem relies on it. -/
def numericEntry : UnifiedKey × JSValue → Except String (Int × JSValue)
  | (.num n, c) => .ok (n, c)
  | (.inheritedMember m, _) =>
    .error ("unmodelled: inherited level " ++ m ++ " reaches the sort")

/-- The ordering used by `sortRulesConfig` (`([a], [b]) => a - b` on the
resolved numeric levels). -/
def levelLe (a b : Int × JSValue) : Prop := a.1 ≤ b.1

instance : DecidableRel levelLe := fun a b => inferInstanceAs (Decidable (a.1 ≤ b.1))

instance : IsTotal (Int × JSValue) levelLe := ⟨fun a b => Int.le_total a.1 b.1⟩

instance : IsTrans (Int × JSValue) levelLe := ⟨fun _ _ _ => Int.le_trans⟩

/-- `rules.sort(sortRulesConfig)`: JavaScript `Array.prototype.sort` is a
stable sort, and with the comparator `a - b` it orders ascending by level;
a stable ascending sort is computed by insertion sort. -/
def sortRulesConfig (l : List (Int × JSValue)) : List (Int × JSValue) :=
  List.insertionSort levelLe l

/-- Result of `parseRuleConfig`: the auxiliary top-level config split off a
`rules` wrapper, and the normalized, severity-sorted level list. -/
structure ParsedRuleConfig : Type where
  config : Option (List (String × JSValue)) := none
  rules : List (Int × JSValue) := []

/-- The level part of a raw config, after unwrapping a `rules` wrapper. -/
def rawOf : RawConfig → RawRules
  | .plain r => r
  | .wrapped _ r => r

/-- The auxiliary top-level config split off a `rules` wrapper. -/
def auxOf : RawConfig → Option (List (String × JSValue))
  | .plain _ => none
  | .wrapped a _ => some a

/-- `parseRuleConfig`: reject an absent raw config, unwrap the `rules`
wrapper, coerce to an array of tuples, reject an empty array, resolve all
level keys, and stable-sort ascending by level.  The `numericEntry` pass is
a model boundary (see there): entries whose level resolved to an inherited
`Object.prototype` member proceed in the program into an
implementation-defined sort, which the embedding refuses instead of
modelling. -/
def parseRuleConfig : Option RawConfig → Except String ParsedRuleConfig
  | none => .error "rules argument must be set"
  | some rc =>
    let entries := coerceToEntries (rawOf rc)
    if entries.isEmpty then .error "rules argument must not be empty"
    else
      match mapExcept unifyRuleLevel entries with
      | .error e => .error e
      | .ok unified =>
        match mapExcept numericEntry unified with
        | .error e => .error e
        | .ok nums => .ok { config := auxOf rc, rules := sortRulesConfig nums }

/-- The `projectRoot` option: a single string or an array of strings
(`none` models an absent option). -/
inductive ProjectRootInput : Type where
  | str : String → ProjectRootInput
  | list : List String → ProjectRootInput

/-- The recognized options of the public entry point. -/
structure LintOptions : Type where
  errorLevel : Option String := none
  projectRoot : Option ProjectRootInput := none

/-- The `errorLevel` switch: default `failure`, `failure` selects the
`Failure` class, `error` the base `Error` class, anything else throws. -/
def resolveErrorLevel : Option String → Except String ErrClass
  | none => .ok .failureCls
  | some s =>
    if s = "failure" then .ok .failureCls
    else if s = "error" then .ok .errorCls
    else .error ("Unknown errorLevel " ++ s)

/-- The accumulator pass of `filterDuplicated` (an `Array.prototype.filter`
predicate keeping a `this`-bound list of values seen so far). -/
def filterDuplicatedGo (seen : List String) : List String → List String
  | [] => []
  | x :: xs =>
    if x ∈ seen then filterDuplicatedGo seen xs
    else x :: filterDuplicatedGo (seen ++ [x]) xs

/-- Deduplicate project roots preserving first-seen order. -/
def filterDuplicated (l : List String) : List String :=
  filterDuplicatedGo [] l

/-- Resolve the requested project roots: default to the current working
directory (`resolve()`) when the option is absent or has no length, coerce a
single string to a one-element list, and deduplicate when more than one
root was given. -/
def normalizeProjectRoot (cwd : String) : Option ProjectRootInput → List String
  | none => [cwd]
  | some (.str s) => if s = "" then [cwd] else [s]
  | some (.list l) =>
    if l.isEmpty then [cwd]
    else if l.length > 1 then filterDuplicated l
    else l

/-- The validation half of `normalizeRules`: a rule without an `evaluate`
function throws a configuration error, otherwise the rule is packaged with
its bound execution function (represented by its `NormalizedRule` data). -/
def normalizeRules (p : String × RuleDef) : Except String (String × NormalizedRule) :=
  match p.2.evaluate with
  | none => .error ("evaluate function not defined for rule " ++ p.1)
  | some ev => .ok (p.1, ⟨p.2.dependsOn, ev, p.2.fetch, p.2.hasFix⟩)

/-- The context object `\x7bprojectRoot\x7d` handed to the task engine. -/
def mkContext (root : String) : JSValue :=
  .obj [("projectRoot", .str root)]

/-- The auxiliary config of a parsed rule config as the JS value passed to
`fetch`/`evaluate` (`undefined` when no `rules` wrapper was present). -/
def auxConfigValue (pc : ParsedRuleConfig) : JSValue :=
  match pc.config with
  | none => .undefinedV
  | some l => .obj l

/-- Modelled from the spec: the external task-graph executor
(`@projectlint/tasks-engine`, not part of this repository).  Per the spec
contract (section 6) it invokes each rule's bound `func` exactly once with
the shared context and that rule's parsed config, and per the aggregator
contract (section 4.3, pinned by the repository test suite) it rejects an
empty rule map (`No validators are defined`) and an empty config map
(`No rules are defined`) synchronously.  Dependency ordering and
control-level skipping are irrelevant to the claims and are not modelled:
every rule is invoked with `undefined` dependency results. -/
def tasksEngine (cls : ErrClass) (projectRules : List (String × NormalizedRule))
    (configs : List (String × ParsedRuleConfig)) (root : String) :
    Except String (List (String × FuncOutput)) :=
  if projectRules.isEmpty then .error "No validators are defined"
  else if configs.isEmpty then .error "No rules are defined"
  else
    .ok (projectRules.map fun p =>
      let pc := (configs.lookup p.1).getD {}
      (p.1, ruleFunc cls p.2 (mkContext root) .undefinedV (auxConfigValue pc) pc.rules))

/-- The terminal per-rule, per-root result record.  A fulfilled settlement
carries `failure`/`fix`/`level`/`result`; a rejected settlement carries
`error`/`level`/`result` (fields a handler does not set stay `undefined`). -/
structure RuleExecutionResult : Type where
  dependsOn : List String := []
  error : Option JSValue := none
  failure : Option JSValue := none
  fix : Option FixBinding := none
  level : Option Int := none
  result : JSValue := .undefinedV

/-- The settled-promise reshaping of one rule's execution: the fulfillment
handler reads `failure`/`fix`/`level` from the wrapper and the resolution
value; the rejection handler reads `level`/`result` from the wrapper and the
rejection value. -/
def reshape (dependsOn : List String) (out : FuncOutput) : RuleExecutionResult :=
  match out.outcome with
  | .ok result =>
    { dependsOn, failure := out.state.failure, fix := out.state.fix,
      level := out.state.level, result }
  | .error e =>
    { dependsOn, error := some e, level := out.state.level, result := out.state.result }

/-- One iteration of the per-root `reduce` body: construct a fresh rule
wrapper per rule (validating `evaluate`), invoke the task engine for this
root, and reshape every rule's settled outcome into its public record. -/
def runRoot (cls : ErrClass) (ruleEntries : List (String × RuleDef))
    (configs : List (String × ParsedRuleConfig)) (root : String) :
    Except String (List (String × RuleExecutionResult)) :=
  match mapExcept normalizeRules ruleEntries with
  | .error e => .error e
  | .ok projectRules =>
    match tasksEngine cls projectRules configs root with
    | .error e => .error e
    | .ok visited =>
      .ok (visited.map fun p =>
        let dependsOn := (((projectRules.lookup p.1).map NormalizedRule.dependsOn).getD [])
        (p.1, reshape dependsOn p.2))

/-- The per-rule-name pass of the `for ... configs[ruleName] =
parseRuleConfig(config)` loop of the entry point. -/
def parseConfigEntry (p : String × Option RawConfig) :
    Except String (String × ParsedRuleConfig) :=
  match parseRuleConfig p.2 with
  | .error e => .error e
  | .ok pc => .ok (p.1, pc)

/-- One key of the accumulated per-root result object. -/
def runRootEntry (cls : ErrClass) (ruleEntries : List (String × RuleDef))
    (configs : List (String × ParsedRuleConfig)) (root : String) :
    Except String (String × List (String × RuleExecutionResult)) :=
  match runRoot cls ruleEntries configs root with
  | .error e => .error e
  | .ok recs => .ok (root, recs)

/-- The public entry point `module.exports = function(rules, configs,
options)`: validate presence of `rules` and `configs`, parse every rule's
raw config, resolve the `errorLevel` option, resolve and deduplicate the
project roots, and evaluate the full rule set once per root.  `Except.error`
models a synchronous throw out of the top-level call; per-rule outcomes are
embedded inside the per-root records and never surface here. -/
def projectLint (cwd : String) (rules : Option (List (String × RuleDef)))
    (configs : Option (List (String × Option RawConfig)))
    (options : LintOptions) :
    Except String (List (String × List (String × RuleExecutionResult))) :=
  match rules with
  | none => .error "rules argument must be set"
  | some ruleEntries =>
    match configs with
    | none => .error "configs argument must be set"
    | some configEntries =>
      match mapExcept parseConfigEntry configEntries with
      | .error e => .error e
      | .ok parsedConfigs =>
        match resolveErrorLevel options.errorLevel with
        | .error e => .error e
        | .ok cls =>
          mapExcept (runRootEntry cls ruleEntries parsedConfigs)
            (normalizeProjectRoot cwd options.projectRoot)

/-! ### Derived characterizations used by the theorems -/

/-- The last entry of a level list whose step is a recoverable failure,
together with the caught value — the entry whose data the cascade loop's
overwriting assignments retain. -/
def lastRecoverable (env : CascadeEnv) : List (Int × JSValue) →
    Option ((Int × JSValue) × JSValue)
  | [] => none
  | e :: es =>
    match lastRecoverable env es with
    | some x => some x
    | none =>
      match stepOf env e with
      | .recoverable v => some (e, v)
      | _ => none

/-- The loop state after a fatal-free pass over `es` starting from `st`. -/
def stateAfter (env : CascadeEnv) (es : List (Int × JSValue)) (st : LoopState) :
    LoopState :=
  match lastRecoverable env es with
  | some ((lv, cfg), v) =>
    { ruleLevel := lv, ruleFailure := some v, errorVar := some v, fixConfig := cfg,
      visited := st.visited ++ es.map Prod.fst }
  | none => { st with visited := st.visited ++ es.map Prod.fst }

/-! ### Concrete instances from the specification examples and the
repository test suite -/

/-- The level-1 policy config of the columns example. -/
def cfg80 : JSValue := .obj [("columns", .num 80)]

/-- The level-2 policy config of the columns example. -/
def cfg100 : JSValue := .obj [("columns", .num 100)]

/-- Read the `columns` threshold out of a policy config object. -/
def columnsOf : JSValue → Int
  | .obj [("columns", .num c)] => c
  | _ => 0

/-- The column-limit check of the specification example, exactly as the
repository test suite writes it: `evaluate(\x7bconfig\x7d) \x7b return config.columns <
columns; \x7d` — a truthy return (a failure) exactly when the level's column
limit is below the columns used. -/
def columnsEvaluate (columnsUsed : Int) (inp : EvalInput) : Outcome :=
  .ret (.bool (decide (columnsOf inp.config < columnsUsed)))

/-- The columns rule (with a declared `fix`, so the fix-target binding is
observable). -/
def columnsRule (columnsUsed : Int) : NormalizedRule :=
  ⟨[], columnsEvaluate columnsUsed, none, true⟩

/-- The raw config of the columns example:
`[["warning", \x7bcolumns: 80\x7d], ["error", \x7bcolumns: 100\x7d]]`. -/
def columnsRawConfig : RawConfig :=
  .plain (.entryList [⟨.name "warning", cfg80⟩, ⟨.name "error", cfg100⟩])

/-- Run the columns rule through the cascade at its normalized levels. -/
def runColumns (columnsUsed : Int) : FuncOutput :=
  ruleFunc .failureCls (columnsRule columnsUsed) (mkContext "/project") .undefinedV .undefinedV
    [(1, cfg80), (2, cfg100)]

/-- A rule whose `evaluate` throws the given value. -/
def throwingRule (v : JSValue) : NormalizedRule :=
  ⟨[], fun _ => .thrown v, none, false⟩

/-- A trivially succeeding rule definition. -/
def dumbRule : RuleDef :=
  { evaluate := some fun _ => .ret .undefinedV }

/-- The severity-name-string config `warning`. -/
def warnConfig : Option RawConfig :=
  some (.plain (.strForm "warning"))

/-- A rule whose `fetch` rejects. -/
def fetchRejRule : NormalizedRule :=
  ⟨[], fun _ => .ret .undefinedV, some fun _ => .error (.plainErr "nofetch"), true⟩

/-! ### Helper lemmas about the fallible map and the cascade loop -/

theorem mapExcept_ok_iff {f : α → Except ε β} {l : List α} {u : List β} :
    mapExcept f l = .ok u ↔ List.Forall₂ (fun a b => f a = .ok b) l u := by
  induction l generalizing u with
  | nil =>
    simp only [mapExcept, List.forall₂_nil_left_iff, Except.ok.injEq]
    exact eq_comm
  | cons x xs ih =>
    simp only [mapExcept]
    cases hfx : f x with
    | error e => simp [List.forall₂_cons_left_iff, hfx]
    | ok y =>
      cases hm : mapExcept f xs with
      | error e => simp [List.forall₂_cons_left_iff, hfx, ← ih, hm]
      | ok ys =>
        simp only [List.forall₂_cons_left_iff, hfx, ← ih, hm, Except.ok.injEq]
        constructor
        · rintro rfl; exact ⟨y, ys, rfl, rfl, rfl⟩
        · rintro ⟨b, u', hb, hu', rfl⟩
          cases hb; cases hu'; rfl

theorem forall₂_mem_right {R : α → β → Prop} {l : List α} {u : List β}
    (h : List.Forall₂ R l u) {b : β} (hb : b ∈ u) : ∃ a ∈ l, R a b := by
  induction h with
  | nil => cases hb
  | @cons a b' l' u' hR hF ih =>
    rcases List.mem_cons.mp hb with rfl | hb'
    · exact ⟨a, List.mem_cons_self a l', hR⟩
    · obtain ⟨a', ha', hRa⟩ := ih hb'
      exact ⟨a', List.mem_cons_of_mem _ ha', hRa⟩

theorem mapExcept_ok_of_forall {f : α → Except ε β} {l : List α}
    (h : ∀ x ∈ l, ∃ y, f x = .ok y) : ∃ u, mapExcept f l = .ok u := by
  induction l with
  | nil => exact ⟨[], rfl⟩
  | cons x xs ih =>
    obtain ⟨y, hy⟩ := h x (List.mem_cons_self x xs)
    obtain ⟨u, hu⟩ := ih fun z hz => h z (List.mem_cons_of_mem x hz)
    exact ⟨y :: u, by simp [mapExcept, hy, hu]⟩

theorem mapExcept_perm_ok {f : α → Except ε β} {l l' : List α} (hp : l.Perm l') :
    ∀ {u : List β}, mapExcept f l = .ok u →
      ∃ u', mapExcept f l' = .ok u' ∧ u.Perm u' := by
  induction hp with
  | nil => exact fun hu => ⟨_, hu, .refl _⟩
  | @cons x l₁ l₂ p ih =>
    intro u hu
    simp only [mapExcept] at hu ⊢
    cases hfx : f x with
    | error e => simp [hfx] at hu
    | ok y =>
      simp only [hfx] at hu
      cases hm : mapExcept f l₁ with
      | error e => simp [hm] at hu
      | ok v =>
        simp only [hm, Except.ok.injEq] at hu
        obtain ⟨v', hv', hperm⟩ := ih hm
        refine ⟨y :: v', by simp [hv'], ?_⟩
        rw [← hu]
        exact hperm.cons y
  | @swap x y l₁ =>
    intro u hu
    simp only [mapExcept] at hu ⊢
    cases hfy : f y with
    | error e => simp [hfy] at hu
    | ok b =>
      cases hfx : f x with
      | error e => simp [hfy, hfx] at hu
      | ok a =>
        cases hm : mapExcept f l₁ with
        | error e => simp [hfy, hfx, hm] at hu
        | ok v =>
          simp only [hfy, hfx, hm, Except.ok.injEq] at hu
          refine ⟨a :: b :: v, rfl, ?_⟩
          rw [← hu]
          exact List.Perm.swap a b v
  | trans p₁ p₂ ih₁ ih₂ =>
    intro u hu
    obtain ⟨u₁, h₁, hp₁⟩ := ih₁ hu
    obtain ⟨u₂, h₂, hp₂⟩ := ih₂ h₁
    exact ⟨u₂, h₂, hp₁.trans hp₂⟩

theorem cascadeLoop_append (env : CascadeEnv) (st : LoopState)
    (l₁ l₂ : List (Int × JSValue)) :
    cascadeLoop env st (l₁ ++ l₂) =
      match cascadeLoop env st l₁ with
      | .ok st' => cascadeLoop env st' l₂
      | .error x => .error x := by
  induction l₁ generalizing st with
  | nil => simp [cascadeLoop]
  | cons e l₁ ih =>
    obtain ⟨lv, cfg⟩ := e
    simp only [List.cons_append, cascadeLoop]
    cases hstep : stepOf env (lv, cfg) with
    | success => exact ih _
    | recoverable v => exact ih _
    | fatal v => rfl

theorem cascadeLoop_no_fatal (env : CascadeEnv) (st : LoopState)
    (es : List (Int × JSValue))
    (h : ∀ e ∈ es, ∀ v, stepOf env e ≠ .fatal v) :
    cascadeLoop env st es = .ok (stateAfter env es st) := by
  induction es generalizing st with
  | nil => simp [cascadeLoop, stateAfter, lastRecoverable]
  | cons e es ih =>
    obtain ⟨lv, cfg⟩ := e
    have hhead := h (lv, cfg) (List.mem_cons_self _ _)
    have htail : ∀ e ∈ es, ∀ v, stepOf env e ≠ .fatal v :=
      fun e he v => h e (List.mem_cons_of_mem _ he) v
    cases hstep : stepOf env (lv, cfg) with
    | success =>
      simp only [cascadeLoop, hstep]
      rw [ih _ htail]
      simp only [stateAfter, lastRecoverable, hstep]
      cases hl : lastRecoverable env es <;>
        simp [hl, List.append_assoc]
    | recoverable v =>
      simp only [cascadeLoop, hstep]
      rw [ih _ htail]
      simp only [stateAfter, lastRecoverable, hstep]
      cases hl : lastRecoverable env es <;>
        simp [hl, List.append_assoc]
    | fatal v => exact absurd hstep (hhead v)

theorem cascadeLoop_fatal (env : CascadeEnv) (st : LoopState)
    (es₁ : List (Int × JSValue)) (lv : Int) (cfg : JSValue)
    (es₂ : List (Int × JSValue)) (x : JSValue)
    (h1 : ∀ e ∈ es₁, ∀ v, stepOf env e ≠ .fatal v)
    (h2 : stepOf env (lv, cfg) = .fatal x) :
    cascadeLoop env st (es₁ ++ (lv, cfg) :: es₂) =
      .error ({ stateAfter env es₁ st with
                ruleLevel := lv,
                visited := (stateAfter env es₁ st).visited ++ [lv] }, x) := by
  rw [cascadeLoop_append, cascadeLoop_no_fatal env st es₁ h1]
  simp only [cascadeLoop, h2]

theorem mem_filterDuplicatedGo {l seen : List String} {x : String} :
    x ∈ filterDuplicatedGo seen l ↔ x ∈ l ∧ x ∉ seen := by
  induction l generalizing seen with
  | nil => simp [filterDuplicatedGo]
  | cons y ys ih =>
    by_cases hy : y ∈ seen
    · simp only [filterDuplicatedGo, if_pos hy, ih, List.mem_cons]
      constructor
      · rintro ⟨h1, h2⟩; exact ⟨Or.inr h1, h2⟩
      · rintro ⟨h1 | h1, h2⟩
        · exact absurd (h1 ▸ hy) h2
        · exact ⟨h1, h2⟩
    · simp only [filterDuplicatedGo, if_neg hy, List.mem_cons, ih,
        List.mem_append, List.mem_singleton]
      by_cases hxy : x = y
      · subst hxy; simp [hy]
      · simp [hxy]

theorem nodup_filterDuplicatedGo (l : List String) :
    ∀ seen, (filterDuplicatedGo seen l).Nodup := by
  induction l with
  | nil => intro seen; simp [filterDuplicatedGo]
  | cons y ys ih =>
    intro seen
    by_cases hy : y ∈ seen
    · simpa only [filterDuplicatedGo, if_pos hy] using ih seen
    · simp only [filterDuplicatedGo, if_neg hy]
      refine List.Nodup.cons ?_ (ih _)
      intro hmem
      rw [mem_filterDuplicatedGo] at hmem
      exact hmem.2 (by simp)

theorem sublist_filterDuplicatedGo (l : List String) :
    ∀ seen, (filterDuplicatedGo seen l).Sublist l := by
  induction l with
  | nil => intro _; simp [filterDuplicatedGo]
  | cons y ys ih =>
    intro seen
    by_cases hy : y ∈ seen
    · simp only [filterDuplicatedGo, if_pos hy]
      exact (ih seen).cons y
    · simp only [filterDuplicatedGo, if_neg hy]
      exact (ih _).cons₂ y

/-- The reversed raw config of the columns example (for order-independence). -/
def columnsRawConfigRev : RawConfig :=
  .plain (.entryList [⟨.name "error", cfg100⟩, ⟨.name "warning", cfg80⟩])

/-! ### Claim theorems -/

/-- Claim C1: the cascade visits levels ascending and keeps the most severe
failing level with the fix target bound to its config; on the concrete
columns example, columns_used 101 gives level 2 / fix config 100 and
columns_used 100 gives level 1 / fix config 80 as the claim states, but with
no failing level (columns_used 79) the code reports level 0, not an
undefined level: `rule.level = 0` is assigned before the cascade starts, so
the recorded level is `some 0` where the claim (and the repository's own
test snapshot) demand it stay undefined. -/
theorem C1_cascade_worst_level_columns_example :
    parseRuleConfig (some columnsRawConfig) =
        .ok { config := none, rules := [(1, cfg80), (2, cfg100)] } ∧
    (runColumns 101).visited = [1, 2] ∧
    (runColumns 101).state.level = some 2 ∧
    (runColumns 101).state.failure = some (.failureErr (.bool true)) ∧
    ((runColumns 101).state.fix).map FixBinding.config = some cfg100 ∧
    (runColumns 100).visited = [1, 2] ∧
    (runColumns 100).state.level = some 1 ∧
    (runColumns 100).state.failure = some (.failureErr (.bool true)) ∧
    ((runColumns 100).state.fix).map FixBinding.config = some cfg80 ∧
    (runColumns 79).state.failure = none ∧
    (runColumns 79).state.fix = none ∧
    (runColumns 79).state.level = some 0 ∧
    (runColumns 79).state.level ≠ none :=
  ⟨rfl, rfl, rfl, rfl, rfl, rfl, rfl, rfl, rfl, rfl, rfl, rfl,
   fun h => Option.noConfusion h⟩

/-- Claim C2 counterexample: under `errorLevel: "error"` a rule whose
`evaluate` throws a plain `Error` does NOT surface as a fatal rejection as
the claim states — the plain `Error` is an instance of the catchable base
class, so the cascade records it as the failure and the execution function
resolves normally. -/
theorem C2_plain_error_not_fatal_under_error_mode :
    resolveErrorLevel (some "error") = .ok .errorCls ∧
    (ruleFunc .errorCls (throwingRule (.plainErr "boom")) .undefinedV .undefinedV .undefinedV
        [(1, .undefinedV)]).outcome = .ok .undefinedV ∧
    (ruleFunc .errorCls (throwingRule (.plainErr "boom")) .undefinedV .undefinedV .undefinedV
        [(1, .undefinedV)]).state.failure = some (.plainErr "boom") ∧
    (ruleFunc .errorCls (throwingRule (.plainErr "boom")) .undefinedV .undefinedV .undefinedV
        [(1, .undefinedV)]).state.level = some 1 :=
  ⟨rfl, rfl, rfl, rfl⟩

/-- Claim C2 (amended): `errorLevel` `failure` selects the `Failure` class
and `error` the base `Error` class as the catchable type, any other value is
a configuration error; a plain `Error` thrown by `evaluate` is fatal under
`failure` but is caught and recorded as the failure under `error`; a thrown
non-Error value is fatal in both modes. -/
theorem C2_error_level_classes :
    resolveErrorLevel none = .ok .failureCls ∧
    resolveErrorLevel (some "failure") = .ok .failureCls ∧
    resolveErrorLevel (some "error") = .ok .errorCls ∧
    (∀ s, s ≠ "failure" → s ≠ "error" →
      resolveErrorLevel (some s) = .error ("Unknown errorLevel " ++ s)) ∧
    (∀ m rest, (ruleFunc .failureCls (throwingRule (.plainErr m)) .undefinedV .undefinedV .undefinedV
        ((1, .undefinedV) :: rest)).outcome = .error (.plainErr m)) ∧
    (∀ m, (ruleFunc .errorCls (throwingRule (.plainErr m)) .undefinedV .undefinedV .undefinedV
        [(1, .undefinedV)]).outcome = .ok .undefinedV ∧
      (ruleFunc .errorCls (throwingRule (.plainErr m)) .undefinedV .undefinedV .undefinedV
        [(1, .undefinedV)]).state.failure = some (.plainErr m)) ∧
    (∀ v cls, isErrorInstance v = false →
      (ruleFunc cls (throwingRule v) .undefinedV .undefinedV .undefinedV
        [(1, .undefinedV)]).outcome = .error v) := by
  refine ⟨rfl, rfl, rfl, ?_, fun m rest => rfl, fun m => ⟨rfl, rfl⟩, ?_⟩
  · intro s h1 h2
    simp [resolveErrorLevel, h1, h2]
  · intro v cls h
    have hf : isFailureInstance v = false := by
      cases v <;> simp_all [isErrorInstance, isFailureInstance]
    have hcatch : instanceOfCls cls v = false := by
      cases cls <;> simp [instanceOfCls, hf, h]
    simp [ruleFunc, fetchedOf, throwingRule, cascadeLoop, stepOf,
      classifyEvaluation, classifyStep, hcatch]

/-- Claim C2 witness: the hypotheses of the amended claim are satisfiable —
`warn` is an unknown `errorLevel`, a plain `Error` is fatal under the
default `failure` class, and a thrown string is fatal even under `error`. -/
theorem C2_error_level_classes_witness :
    resolveErrorLevel (some "warn") = .error "Unknown errorLevel warn" ∧
    (ruleFunc .failureCls (throwingRule (.plainErr "boom")) .undefinedV .undefinedV .undefinedV
        [(1, .undefinedV), (2, .undefinedV)]).outcome = .error (.plainErr "boom") ∧
    (ruleFunc .errorCls (throwingRule (.str "boom")) .undefinedV .undefinedV .undefinedV
        [(1, .undefinedV)]).outcome = .error (.str "boom") :=
  ⟨C2_error_level_classes.2.2.2.1 "warn" (by decide) (by decide),
   C2_error_level_classes.2.2.2.2.1 "boom" [(2, .undefinedV)],
   C2_error_level_classes.2.2.2.2.2.2 (.str "boom") .errorCls rfl⟩

/-- Claim C3: classification of one `evaluate` outcome — falsy values are
success; a returned promise is awaited with its resolution ignored and its
rejection caught exactly like a throw; a non-empty array and a non-empty
plain object are recoverable failure payloads (wrapped in the domain
`Failure`), empty ones are success; a returned or thrown Error-kind value is
caught as is, a domain `Failure` being recoverable in every mode while a
plain `Error` is fatal under the `failure` class. -/
theorem C3_outcome_classification :
    (∀ v, truthy v = false → classifyEvaluation (.ret v) = .success) ∧
    (∀ v, classifyEvaluation (.promiseResolved v) = .success) ∧
    (∀ e, classifyEvaluation (.promiseRejected e) = .caught e) ∧
    (∀ e, classifyEvaluation (.thrown e) = .caught e) ∧
    (∀ x xs, classifyEvaluation (.ret (.arr (x :: xs))) =
      .caught (.failureErr (.arr (x :: xs)))) ∧
    classifyEvaluation (.ret (.arr [])) = .success ∧
    (∀ f fs, classifyEvaluation (.ret (.obj (f :: fs))) =
      .caught (.failureErr (.obj (f :: fs)))) ∧
    classifyEvaluation (.ret (.obj [])) = .success ∧
    (∀ r, classifyEvaluation (.ret (.failureErr r)) = .caught (.failureErr r)) ∧
    (∀ m, classifyEvaluation (.ret (.plainErr m)) = .caught (.plainErr m)) ∧
    (∀ cls r, classifyStep cls (.caught (.failureErr r)) = .recoverable (.failureErr r)) ∧
    (∀ m, classifyStep .failureCls (.caught (.plainErr m)) = .fatal (.plainErr m)) := by
  refine ⟨?_, fun v => rfl, fun e => rfl, fun e => rfl, fun x xs => rfl, rfl,
    fun f fs => rfl, rfl, fun r => rfl, fun m => rfl, ?_, fun m => rfl⟩
  · intro v h
    cases v <;> simp_all [classifyEvaluation, truthy, isErrorInstance]
  · intro cls r
    cases cls <;> rfl

/-- Claim C3 witness: the falsy-success case applied at `undefined`. -/
theorem C3_outcome_classification_witness :
    classifyEvaluation (.ret .undefinedV) = .success :=
  C3_outcome_classification.1 .undefinedV rfl

/-- Claim C5 counterexample: `toString` is a non-numeric key outside the
severity table, yet it does not fail with a configuration error — the
property read `levels[key]` walks the prototype chain, finds the inherited
`Object.prototype.toString`, and the non-null inherited value passes the
`level == null` test and is written into the entry as its level. -/
theorem C5_prototype_member_not_rejected :
    ("toString" : String) ∉ (["warn", "warning", "error", "critical",
        "ignore", "skipIf", "skip", "disabled"] : List String) ∧
    levels "toString" = .inherited "toString" ∧
    unifyRuleLevel ⟨.name "toString", .undefinedV⟩ =
      .ok (.inheritedMember "toString", .undefinedV) :=
  ⟨by decide, rfl, rfl⟩

/-- Claim C5 (amended): every documented severity name resolves to its
integer and numeric level keys pass through unchanged; a non-numeric key
that is neither a table name nor the name of a member inherited from
`Object.prototype` fails with the Unknown-level configuration error; a key
naming an inherited `Object.prototype` member is not rejected — the
inherited value is written into the entry as its level. -/
theorem C5_severity_name_resolution :
    levels "warn" = .own 1 ∧ levels "warning" = .own 1 ∧
    levels "error" = .own 2 ∧ levels "critical" = .own 3 ∧
    levels "ignore" = .own (-1) ∧ levels "skipIf" = .own (-2) ∧
    levels "skip" = .own (-3) ∧ levels "disabled" = .own (-4) ∧
    (∀ c, unifyRuleLevel ⟨.name "warn", c⟩ = .ok (.num 1, c)) ∧
    (∀ c, unifyRuleLevel ⟨.name "warning", c⟩ = .ok (.num 1, c)) ∧
    (∀ c, unifyRuleLevel ⟨.name "error", c⟩ = .ok (.num 2, c)) ∧
    (∀ c, unifyRuleLevel ⟨.name "critical", c⟩ = .ok (.num 3, c)) ∧
    (∀ c, unifyRuleLevel ⟨.name "ignore", c⟩ = .ok (.num (-1), c)) ∧
    (∀ c, unifyRuleLevel ⟨.name "skipIf", c⟩ = .ok (.num (-2), c)) ∧
    (∀ c, unifyRuleLevel ⟨.name "skip", c⟩ = .ok (.num (-3), c)) ∧
    (∀ c, unifyRuleLevel ⟨.name "disabled", c⟩ = .ok (.num (-4), c)) ∧
    (∀ n c, unifyRuleLevel ⟨.num n, c⟩ = .ok (.num n, c)) ∧
    (∀ s, s ∉ (["warn", "warning", "error", "critical", "ignore", "skipIf",
        "skip", "disabled"] : List String) → s ∉ objectPrototypeMembers →
      levels s = .undefinedProp) ∧
    (∀ s c, levels s = .undefinedProp →
      unifyRuleLevel ⟨.name s, c⟩ = .error ("Unknown level " ++ s)) ∧
    (∀ s c, s ∈ objectPrototypeMembers →
      s ∉ (["warn", "warning", "error", "critical", "ignore", "skipIf",
        "skip", "disabled"] : List String) →
      unifyRuleLevel ⟨.name s, c⟩ = .ok (.inheritedMember s, c)) := by
  refine ⟨rfl, rfl, rfl, rfl, rfl, rfl, rfl, rfl, fun c => rfl, fun c => rfl,
    fun c => rfl, fun c => rfl, fun c => rfl, fun c => rfl, fun c => rfl,
    fun c => rfl, fun n c => rfl, ?_, ?_, ?_⟩
  · intro s hs hp
    simp only [List.mem_cons, List.mem_singleton, not_or] at hs
    obtain ⟨h1, h2, h3, h4, h5, h6, h7, h8⟩ := hs
    simp [levels, h1, h2, h3, h4, h5, h6, h7, h8, hp]
  · intro s c h
    simp [unifyRuleLevel, h]
  · intro s c hmem hs
    simp only [List.mem_cons, List.mem_singleton, not_or] at hs
    obtain ⟨h1, h2, h3, h4, h5, h6, h7, h8⟩ := hs
    simp [unifyRuleLevel, levels, h1, h2, h3, h4, h5, h6, h7, h8, hmem]

/-- Claim C5 witness: `dumbest` reads `undefined` and is rejected, while
the inherited prototype member `toString` silently resolves. -/
theorem C5_severity_name_resolution_witness :
    levels "dumbest" = .undefinedProp ∧
    unifyRuleLevel ⟨.name "dumbest", .undefinedV⟩ =
      .error "Unknown level dumbest" ∧
    unifyRuleLevel ⟨.name "hasOwnProperty", .undefinedV⟩ =
      .ok (.inheritedMember "hasOwnProperty", .undefinedV) := by
  obtain ⟨-, -, -, -, -, -, -, -, -, -, -, -, -, -, -, -, -, h18, h19, h20⟩ :=
    C5_severity_name_resolution
  exact ⟨h18 "dumbest" (by decide) (by decide),
    h19 "dumbest" .undefinedV (h18 "dumbest" (by decide) (by decide)),
    h20 "hasOwnProperty" .undefinedV (by decide) (by decide)⟩

theorem parseRuleConfig_ok {rc : RawConfig} {p : ParsedRuleConfig}
    (h : parseRuleConfig (some rc) = .ok p) :
    ∃ unified nums,
      mapExcept unifyRuleLevel (coerceToEntries (rawOf rc)) = .ok unified ∧
      mapExcept numericEntry unified = .ok nums ∧
      p = { config := auxOf rc, rules := sortRulesConfig nums } := by
  simp only [parseRuleConfig] at h
  split at h
  · exact absurd h (by simp)
  · split at h
    · exact absurd h (by simp)
    · next unified heq =>
      split at h
      · exact absurd h (by simp)
      · next nums heq2 =>
        injection h with h2
        exact ⟨unified, nums, heq, heq2, h2.symm⟩

/-- Claim C4: for every raw config that normalizes, the output level list is
sorted ascending by resolved level; the normalized list is invariant (as a
multiset, and exactly on the level sequence) under permuting the raw
entries; and entries with equal levels keep their input order through the
stable sort. -/
theorem C4_normalization_sorted_stable_order_independent :
    (∀ rc p, parseRuleConfig rc = .ok p → p.rules.Pairwise levelLe) ∧
    (∀ rc rc' u u',
      (coerceToEntries (rawOf rc)).Perm (coerceToEntries (rawOf rc')) →
      parseRuleConfig (some rc) = .ok u → parseRuleConfig (some rc') = .ok u' →
      u.rules.Perm u'.rules ∧ u.rules.map Prod.fst = u'.rules.map Prod.fst) ∧
    (∀ (e₁ e₂ : Int × JSValue) (l : List (Int × JSValue)), e₁.1 = e₂.1 →
      [e₁, e₂].Sublist l → [e₁, e₂].Sublist (sortRulesConfig l)) := by
  refine ⟨?_, ?_, ?_⟩
  · intro rc p h
    cases rc with
    | none => exact absurd h (by simp [parseRuleConfig])
    | some rc =>
      obtain ⟨unified, nums, -, -, rfl⟩ := parseRuleConfig_ok h
      exact List.sorted_insertionSort levelLe nums
  · intro rc rc' u u' hperm h h'
    obtain ⟨un1, nu1, hun1, hnu1, rfl⟩ := parseRuleConfig_ok h
    obtain ⟨un2, nu2, hun2, hnu2, rfl⟩ := parseRuleConfig_ok h'
    obtain ⟨w, hw, hpw⟩ := mapExcept_perm_ok hperm hun1
    have hwu : w = un2 := by
      have := hw.symm.trans hun2
      injection this
    rw [hwu] at hpw
    obtain ⟨w2, hw2, hpw2⟩ := mapExcept_perm_ok hpw hnu1
    have hwu2 : w2 = nu2 := by
      have := hw2.symm.trans hnu2
      injection this
    rw [hwu2] at hpw2
    have hrules : (sortRulesConfig nu1).Perm (sortRulesConfig nu2) :=
      ((List.perm_insertionSort levelLe nu1).trans hpw2).trans
        (List.perm_insertionSort levelLe nu2).symm
    refine ⟨hrules, ?_⟩
    have hs1 : (List.map Prod.fst (sortRulesConfig nu1)).Pairwise
        (fun a b : Int => a ≤ b) :=
      List.pairwise_map.mpr
        ((List.sorted_insertionSort levelLe nu1).imp fun hab => hab)
    have hs2 : (List.map Prod.fst (sortRulesConfig nu2)).Pairwise
        (fun a b : Int => a ≤ b) :=
      List.pairwise_map.mpr
        ((List.sorted_insertionSort levelLe nu2).imp fun hab => hab)
    exact List.eq_of_perm_of_sorted (hrules.map Prod.fst) hs1 hs2
  · intro e₁ e₂ l h hsub
    exact List.pair_sublist_insertionSort (le_of_eq h) hsub

/-- Claim C4 witness: the columns config and its reversal normalize to the
same sorted level sequence, and equal-level entries stay in input order. -/
theorem C4_normalization_witness :
    ([((1 : Int), cfg80), (2, cfg100)] : List (Int × JSValue)).Pairwise levelLe ∧
    List.map Prod.fst ([((1 : Int), cfg80), (2, cfg100)] : List (Int × JSValue)) =
      List.map Prod.fst ([((1 : Int), cfg80), (2, cfg100)] : List (Int × JSValue)) ∧
    ([((1 : Int), cfg80), (1, cfg100)] : List (Int × JSValue)).Sublist
      (sortRulesConfig [(1, cfg80), (1, cfg100)]) := by
  have hparse : parseRuleConfig (some columnsRawConfig) =
      .ok { config := none, rules := [(1, cfg80), (2, cfg100)] } := rfl
  have hparse2 : parseRuleConfig (some columnsRawConfigRev) =
      .ok { config := none, rules := [(1, cfg80), (2, cfg100)] } := rfl
  refine ⟨C4_normalization_sorted_stable_order_independent.1
      (some columnsRawConfig) _ hparse,
    (C4_normalization_sorted_stable_order_independent.2.1 columnsRawConfig
      columnsRawConfigRev _ _
      (by simp only [columnsRawConfig, columnsRawConfigRev, rawOf, coerceToEntries]
          exact List.Perm.swap _ _ [])
      hparse hparse2).2,
    C4_normalization_sorted_stable_order_independent.2.2 (1, cfg80) (1, cfg100)
      [(1, cfg80), (1, cfg100)] rfl (List.Sublist.refl _)⟩

/-- Claim C7: a fatal error aborts the cascade immediately — a rejected
fetch produces the rejection with no level visited, no wrapper field set and
no fix thunk; a fatal step after a fatal-free prefix rejects with that
error, visits exactly the prefix levels plus the fatal one (none after it),
records the fatal level, and never constructs the fix thunk. -/
theorem C7_fatal_abort :
    (∀ cls methods context deps config rulesList f e,
      methods.fetch = some f → f ⟨config, context, deps⟩ = .error e →
      ruleFunc cls methods context deps config rulesList =
        { state := {}, visited := [], outcome := .error e }) ∧
    (∀ cls methods context deps config fetchResult es₁ lv cfg es₂ x,
      fetchedOf methods context deps config = .ok fetchResult →
      (∀ ent ∈ es₁, ∀ v,
        stepOf ⟨cls, NormalizedRule.evaluate methods, context, deps, config, fetchResult⟩
          ent ≠ .fatal v) →
      stepOf ⟨cls, NormalizedRule.evaluate methods, context, deps, config, fetchResult⟩
          (lv, cfg) = .fatal x →
      (ruleFunc cls methods context deps config
          (es₁ ++ (lv, cfg) :: es₂)).outcome = .error x ∧
      (ruleFunc cls methods context deps config
          (es₁ ++ (lv, cfg) :: es₂)).visited = es₁.map Prod.fst ++ [lv] ∧
      (ruleFunc cls methods context deps config
          (es₁ ++ (lv, cfg) :: es₂)).state.fix = none ∧
      (ruleFunc cls methods context deps config
          (es₁ ++ (lv, cfg) :: es₂)).state.level = some lv) := by
  constructor
  · intro cls methods context deps config rulesList f e hf he
    simp [ruleFunc, fetchedOf, hf, he]
  · intro cls methods context deps config fetchResult es₁ lv cfg es₂ x hfet h1 h2
    have hc := cascadeLoop_fatal
      ⟨cls, NormalizedRule.evaluate methods, context, deps, config, fetchResult⟩
      ⟨0, none, none, .undefinedV, []⟩ es₁ lv cfg es₂ x h1 h2
    simp only [ruleFunc, hfet, hc]
    cases hl : lastRecoverable
        ⟨cls, NormalizedRule.evaluate methods, context, deps, config, fetchResult⟩ es₁ <;>
      simp [stateAfter, hl]

/-- Claim C7 witness: a rejecting fetch aborts with nothing recorded, and a
fatal throw at the first level leaves the second level unvisited. -/
theorem C7_fatal_abort_witness :
    ruleFunc .failureCls fetchRejRule .undefinedV .undefinedV .undefinedV [(1, .undefinedV)] =
      { state := {}, visited := [], outcome := .error (.plainErr "nofetch") } ∧
    (ruleFunc .failureCls (throwingRule (.str "boom")) .undefinedV .undefinedV .undefinedV
      ((1, .undefinedV) :: [(2, .undefinedV)])).outcome = .error (.str "boom") ∧
    (ruleFunc .failureCls (throwingRule (.str "boom")) .undefinedV .undefinedV .undefinedV
      ((1, .undefinedV) :: [(2, .undefinedV)])).visited = [1] ∧
    (ruleFunc .failureCls (throwingRule (.str "boom")) .undefinedV .undefinedV .undefinedV
      ((1, .undefinedV) :: [(2, .undefinedV)])).state.fix = none := by
  have h2 := C7_fatal_abort.2 .failureCls (throwingRule (.str "boom"))
    .undefinedV .undefinedV .undefinedV .undefinedV [] 1 .undefinedV [(2, .undefinedV)] (.str "boom")
    rfl (by intro ent hent v; cases hent) rfl
  exact ⟨C7_fatal_abort.1 .failureCls fetchRejRule .undefinedV .undefinedV .undefinedV
      [(1, .undefinedV)] _ (.plainErr "nofetch") rfl rfl,
    h2.1, h2.2.1, h2.2.2.1⟩

/-- Claim C9: when the cascade runs to completion without a fatal error, the
execution function resolves with exactly the fetch step's value — which is
`undefined` when no `fetch` is declared — whether or not a recoverable
failure was recorded along the way. -/
theorem C9_returns_fetched_result :
    (∀ cls methods context deps config rulesList fetchResult,
      fetchedOf methods context deps config = .ok fetchResult →
      (∀ ent ∈ rulesList, ∀ v,
        stepOf ⟨cls, NormalizedRule.evaluate methods, context, deps, config, fetchResult⟩
          ent ≠ .fatal v) →
      (ruleFunc cls methods context deps config rulesList).outcome = .ok fetchResult) ∧
    (∀ methods context deps config, methods.fetch = none →
      fetchedOf methods context deps config = .ok .undefinedV) := by
  constructor
  · intro cls methods context deps config rulesList fetchResult hfet hnf
    have hc := cascadeLoop_no_fatal
      ⟨cls, NormalizedRule.evaluate methods, context, deps, config, fetchResult⟩
      ⟨0, none, none, .undefinedV, []⟩ rulesList hnf
    simp [ruleFunc, hfet, hc]
  · intro methods context deps config h
    simp [fetchedOf, h]

/-- Claim C9 witness: the columns rule at columns_used 100 records a
recoverable failure at level 1 yet resolves with the (undefined) fetch
value. -/
theorem C9_returns_fetched_result_witness :
    (ruleFunc .failureCls (columnsRule 100) (mkContext "/project") .undefinedV .undefinedV
      [(1, cfg80), (2, cfg100)]).outcome = .ok .undefinedV ∧
    fetchedOf (columnsRule 100) (mkContext "/project") .undefinedV .undefinedV = .ok .undefinedV := by
  constructor
  · refine C9_returns_fetched_result.1 .failureCls (columnsRule 100)
      (mkContext "/project") .undefinedV .undefinedV [(1, cfg80), (2, cfg100)] .undefinedV rfl ?_
    intro ent hent v
    rcases List.mem_cons.mp hent with rfl | h2
    · exact fun hcon => StepClass.noConfusion hcon
    · rcases List.mem_cons.mp h2 with rfl | h3
      · exact fun hcon => StepClass.noConfusion hcon
      · cases h3
  · exact C9_returns_fetched_result.2 (columnsRule 100) (mkContext "/project")
      .undefinedV .undefinedV rfl

/-- Claim C8: project roots default to the working directory when none are
given, a single (non-empty) string becomes a one-element list, and
duplicates are removed keeping the first occurrence — the dedup output has
no duplicates, is a sublist of the input (first-seen order), keeps exactly
the input's members, and passing the same root twice yields a single entry,
both in the resolved root list and in the final result set. -/
theorem C8_project_root_resolution :
    (∀ cwd, normalizeProjectRoot cwd none = [cwd]) ∧
    (∀ cwd s, s ≠ "" → normalizeProjectRoot cwd (some (.str s)) = [s]) ∧
    (∀ l, (filterDuplicated l).Nodup) ∧
    (∀ l, (filterDuplicated l).Sublist l) ∧
    (∀ l x, x ∈ filterDuplicated l ↔ x ∈ l) ∧
    (∀ cwd r, normalizeProjectRoot cwd (some (.list [r, r])) = [r]) ∧
    (∀ cwd ru cf el r res,
      projectLint cwd ru cf { errorLevel := el, projectRoot := some (.list [r, r]) } =
        .ok res →
      res.map Prod.fst = [r]) := by
  refine ⟨fun cwd => rfl, ?_, fun l => nodup_filterDuplicatedGo l [],
    fun l => sublist_filterDuplicatedGo l [], ?_, ?_, ?_⟩
  · intro cwd s h
    simp [normalizeProjectRoot, h]
  · intro l x
    simp [filterDuplicated, mem_filterDuplicatedGo]
  · intro cwd r
    simp [normalizeProjectRoot, filterDuplicated, filterDuplicatedGo]
  · intro cwd ru cf el r res h
    cases ru with
    | none => simp [projectLint] at h
    | some ruleEntries =>
      cases cf with
      | none => simp [projectLint] at h
      | some configEntries =>
        simp only [projectLint] at h
        cases hpc : mapExcept parseConfigEntry configEntries with
        | error e => simp [hpc] at h
        | ok parsed =>
          simp only [hpc] at h
          cases hel : resolveErrorLevel el with
          | error e => simp [hel] at h
          | ok cls =>
            simp only [hel] at h
            have hroots : normalizeProjectRoot cwd (some (.list [r, r])) = [r] := by
              simp [normalizeProjectRoot, filterDuplicated, filterDuplicatedGo]
            rw [hroots] at h
            cases hrr : runRootEntry cls ruleEntries parsed r with
            | error e => simp [mapExcept, hrr] at h
            | ok y =>
              simp only [mapExcept, hrr] at h
              obtain ⟨recs, rfl⟩ : ∃ recs, y = (r, recs) := by
                simp only [runRootEntry] at hrr
                cases hrun : runRoot cls ruleEntries parsed r with
                | error e => simp [hrun] at hrr
                | ok recs =>
                  simp only [hrun, Except.ok.injEq] at hrr
                  exact ⟨recs, hrr.symm⟩
              injection h with h2
              rw [← h2]
              rfl

/-- Claim C8 witness: a duplicated root produces a single result entry. -/
theorem C8_project_root_resolution_witness :
    normalizeProjectRoot "/cwd" (some (.str "/a")) = ["/a"] ∧
    List.map Prod.fst
      [("/a",
        [("dumb", ({ dependsOn := [], error := none, failure := none, fix := none,
                     level := some 0, result := .undefinedV } : RuleExecutionResult))])] =
      ["/a"] := by
  constructor
  · exact C8_project_root_resolution.2.1 "/cwd" "/a" (by decide)
  · exact C8_project_root_resolution.2.2.2.2.2.2 "/cwd"
      (some [("dumb", dumbRule)]) (some [("dumb", warnConfig)]) none "/a" _ rfl

/-- Claim C6: every configuration error — missing rules, missing configs, a
rule without `evaluate`, an unknown severity name, an empty normalized level
list, an unrecognized `errorLevel`, and (delegated to the task engine) empty
rule or config maps — is a synchronous throw of the top-level call
(`Except.error` here), while once validation passes the call returns the
result set for every behaviour of the rules' `evaluate`/`fetch`: per-rule
problems are embedded in the records, never a top-level rejection. -/
theorem C6_configuration_errors_synchronous :
    projectLint "/cwd" none (some [("dumb", warnConfig)]) {} =
      .error "rules argument must be set" ∧
    projectLint "/cwd" (some [("dumb", dumbRule)]) none {} =
      .error "configs argument must be set" ∧
    projectLint "/cwd" (some [("dumb", {})]) (some [("dumb", warnConfig)]) {} =
      .error "evaluate function not defined for rule dumb" ∧
    projectLint "/cwd" (some [("dumb", dumbRule)])
      (some [("dumb", some (.plain (.strForm "dumbest")))]) {} =
      .error "Unknown level dumbest" ∧
    projectLint "/cwd" (some [("dumb", dumbRule)])
      (some [("dumb", some (.plain (.keyed [])))]) {} =
      .error "rules argument must not be empty" ∧
    projectLint "/cwd" (some [("dumb", dumbRule)]) (some [("dumb", warnConfig)])
      { errorLevel := some "warn" } = .error "Unknown errorLevel warn" ∧
    projectLint "/cwd" (some []) (some [("dumb", warnConfig)]) {} =
      .error "No validators are defined" ∧
    projectLint "/cwd" (some [("dumb", dumbRule)]) (some []) {} =
      .error "No rules are defined" ∧
    (∀ cwd ruleEntries configEntries options parsed cls,
      mapExcept parseConfigEntry configEntries = .ok parsed →
      resolveErrorLevel options.errorLevel = .ok cls →
      (∀ p ∈ ruleEntries, (RuleDef.evaluate p.2).isSome = true) →
      ruleEntries ≠ [] → configEntries ≠ [] →
      ∃ res, projectLint cwd (some ruleEntries) (some configEntries) options =
        .ok res) := by
  refine ⟨rfl, rfl, rfl, rfl, rfl, rfl, rfl, rfl, ?_⟩
  intro cwd ruleEntries configEntries options parsed cls hpc hel hev hne hce
  simp only [projectLint, hpc, hel]
  apply mapExcept_ok_of_forall
  intro root hroot
  obtain ⟨prs, hprs⟩ : ∃ prs, mapExcept normalizeRules ruleEntries = .ok prs := by
    apply mapExcept_ok_of_forall
    intro p hp
    obtain ⟨ev, hevp⟩ := Option.isSome_iff_exists.mp (hev p hp)
    exact ⟨(p.1, ⟨p.2.dependsOn, ev, p.2.fetch, p.2.hasFix⟩),
      by simp [normalizeRules, hevp]⟩
  have hprsne : prs ≠ [] := by
    have hlen := (mapExcept_ok_iff.mp hprs).length_eq
    intro hnil
    rw [hnil, List.length_nil] at hlen
    exact hne (List.length_eq_zero.mp hlen)
  have hpane : parsed ≠ [] := by
    have hlen := (mapExcept_ok_iff.mp hpc).length_eq
    intro hnil
    rw [hnil, List.length_nil] at hlen
    exact hce (List.length_eq_zero.mp hlen)
  have h1 : prs.isEmpty = false := by
    cases prs with
    | nil => exact absurd rfl hprsne
    | cons a l => rfl
  have h2 : parsed.isEmpty = false := by
    cases parsed with
    | nil => exact absurd rfl hpane
    | cons a l => rfl
  obtain ⟨vis, hvis⟩ : ∃ vis, tasksEngine cls prs parsed root = .ok vis := by
    simp only [tasksEngine, h1, h2]
    exact ⟨_, rfl⟩
  refine ⟨(root, vis.map fun p =>
      (p.1, reshape (((prs.lookup p.1).map NormalizedRule.dependsOn).getD []) p.2)), ?_⟩
  simp [runRootEntry, runRoot, hprs, hvis]

/-- Claim C6 witness: with valid inputs the call settles even though the
rule itself crashes fatally — the crash stays inside the records. -/
theorem C6_configuration_errors_synchronous_witness :
    (projectLint "/cwd"
      (some [("dumb", { evaluate := some fun _ => .thrown (.str "crash") })])
      (some [("dumb", warnConfig)]) {}).isOk = true := by
  obtain ⟨res, hres⟩ := C6_configuration_errors_synchronous.2.2.2.2.2.2.2.2
    "/cwd" [("dumb", { evaluate := some fun _ => .thrown (.str "crash") })]
    [("dumb", warnConfig)] {}
    [("dumb", { config := none, rules := [(1, .undefinedV)] })] .failureCls
    rfl rfl
    (by intro p hp
        rcases List.mem_singleton.mp hp with rfl
        rfl)
    (by intro hcon; cases hcon)
    (by intro hcon; cases hcon)
  rw [hres]
  rfl

theorem projectLint_root_entry {cwd : String}
    {ruleEntries : List (String × RuleDef)}
    {configEntries : List (String × Option RawConfig)} {options : LintOptions}
    {res : List (String × List (String × RuleExecutionResult))}
    {r : String} {recs : List (String × RuleExecutionResult)}
    (h : projectLint cwd (some ruleEntries) (some configEntries) options = .ok res)
    (hmem : (r, recs) ∈ res) :
    ∃ parsed cls,
      mapExcept parseConfigEntry configEntries = .ok parsed ∧
      resolveErrorLevel options.errorLevel = .ok cls ∧
      runRoot cls ruleEntries parsed r = .ok recs := by
  simp only [projectLint] at h
  cases hpc : mapExcept parseConfigEntry configEntries with
  | error e => simp [hpc] at h
  | ok parsed =>
    simp only [hpc] at h
    cases hel : resolveErrorLevel options.errorLevel with
    | error e => simp [hel] at h
    | ok cls =>
      simp only [hel] at h
      obtain ⟨root, -, hre⟩ := forall₂_mem_right (mapExcept_ok_iff.mp h) hmem
      refine ⟨parsed, cls, rfl, rfl, ?_⟩
      simp only [runRootEntry] at hre
      cases hrun : runRoot cls ruleEntries parsed root with
      | error e => simp [hrun] at hre
      | ok recs0 =>
        simp only [hrun, Except.ok.injEq] at hre
        obtain ⟨rfl, rfl⟩ := Prod.mk.injEq .. ▸ hre
        exact hrun

/-- Claim C10: for a fixed rule set, config set and error level, the records
reported for one project root are a function of that root alone — the rule
wrappers holding the mutable `level`/`failure`/`fix`/`result` fields are
built fresh inside each root's iteration, so whatever other roots run in the
same call (or in another call) cannot change a root's records. -/
theorem C10_per_root_records_independent :
    ∀ cwd ruleEntries configEntries (o o' : LintOptions) res res' r recs recs',
      o.errorLevel = o'.errorLevel →
      projectLint cwd (some ruleEntries) (some configEntries) o = .ok res →
      projectLint cwd (some ruleEntries) (some configEntries) o' = .ok res' →
      (r, recs) ∈ res → (r, recs') ∈ res' →
      recs = recs' := by
  intro cwd ruleEntries configEntries o o' res res' r recs recs' helev h h' hm hm'
  obtain ⟨parsed, cls, hpc, hel, hrun⟩ := projectLint_root_entry h hm
  obtain ⟨parsed2, cls2, hpc2, hel2, hrun2⟩ := projectLint_root_entry h' hm'
  have hp : parsed2 = parsed := by
    have h2 := hpc.symm.trans hpc2
    injection h2 with h3
    exact h3.symm
  have hcls : cls2 = cls := by
    rw [← helev] at hel2
    have h2 := hel.symm.trans hel2
    injection h2 with h3
    exact h3.symm
  rw [hp, hcls] at hrun2
  have h2 := hrun.symm.trans hrun2
  injection h2

/-- Claim C10 witness: the records of root `/a` are identical whether the
call evaluates `/a` alone or `/b` before `/a`. -/
theorem C10_per_root_records_independent_witness :
    [("dumb", ({ dependsOn := [], error := none, failure := none, fix := none,
                 level := some 0, result := .undefinedV } : RuleExecutionResult))] =
    [("dumb", ({ dependsOn := [], error := none, failure := none, fix := none,
                 level := some 0, result := .undefinedV } : RuleExecutionResult))] := by
  refine C10_per_root_records_independent "/cwd" [("dumb", dumbRule)]
    [("dumb", warnConfig)]
    { errorLevel := none, projectRoot := some (.str "/a") }
    { errorLevel := none, projectRoot := some (.list ["/b", "/a"]) }
    _ _ "/a" _ _ rfl rfl rfl ?_ ?_
  · exact List.mem_singleton.mpr rfl
  · exact List.mem_cons_of_mem _ (List.mem_singleton.mpr rfl)

end Projectlint
